import Mathlib

/-!
Verification of the two-stage todo query/filter/sort subsystem.

Server side (from `TodoController.java`): the filter predicate builder
`constructFilter`, the sort order resolver `constructSortingOrder`, and the
record lifecycle operations `getTodo`, `addNewTodo`, `deleteTodo`.

Client side (from `todo.service.ts` and its callers): the client-side
refiner `filterTodos`.

Strings are modelled by Lean `String`; the case folding used by the server's
case-insensitive regular expressions (Java `Pattern.CASE_INSENSITIVE`
without `UNICODE_CASE`) is ASCII folding, which coincides with Lean's
`Char.toLower`.
-/

/-- `charsStart needle hay` is true when `hay` starts with `needle`. -/
def charsStart : List Char → List Char → Bool
  | [], _ => true
  | _ :: _, [] => false
  | a :: as, b :: bs => a == b && charsStart as bs

/-- `charsHasSub needle hay` is true when `needle` occurs as a contiguous
run inside `hay` (unanchored substring containment). -/
def charsHasSub (needle : List Char) : List Char → Bool
  | [] => charsStart needle []
  | c :: t => charsStart needle (c :: t) || charsHasSub needle t

/-- Case-sensitive substring containment, as JavaScript
`hay.indexOf(needle) !== -1`. -/
def strHasSub (hay needle : String) : Bool :=
  charsHasSub needle.data hay.data

/-- Case-insensitive (ASCII folding) substring containment, as a Java
`Pattern.quote`d regular expression compiled with `CASE_INSENSITIVE` and
searched unanchored. -/
def strHasSubCI (hay needle : String) : Bool :=
  charsHasSub (needle.data.map Char.toLower) (hay.data.map Char.toLower)

namespace Server

/-- The server-side todo record (`Todo.java`), as persisted in the `todos`
collection: `_id` is the hex form of the Mongo ObjectId, `status` is a
boolean. -/
structure Todo where
  _id : String
  owner : String
  status : Bool
  body : String
  category : String
deriving DecidableEq, Repr

/-- The text a record presents for a given filter key. Fields are matched
on their text at the store boundary, the boolean `status` through its text
form (spec sections 1 and 9 treat the store as an opaque collection doing
substring matching on field text). Keys other than the four filter keys
name no field. -/
def docField (d : Todo) (key : String) : String :=
  if key == "owner" then d.owner
  else if key == "status" then (if d.status then "true" else "false")
  else if key == "body" then d.body
  else if key == "category" then d.category
  else ""

/-- One `Filters.regex(key, pattern)` leaf with a `Pattern.quote`d literal
pattern compiled `CASE_INSENSITIVE`. -/
structure RegexFilter where
  key : String
  pat : String
deriving DecidableEq, Repr

/-- The Bson filter documents `constructFilter` can build: the empty
document (`new Document()`) or `Filters.and` of regex leaves. -/
inductive Bson where
  | emptyDoc
  | andAll (fs : List RegexFilter)
deriving DecidableEq, Repr

/-- Does one regex leaf accept a record: unanchored case-insensitive
substring search of the quoted literal against the field's text. -/
def regexAccepts (f : RegexFilter) (d : Todo) : Bool :=
  strHasSubCI (docField d f.key) f.pat

/-- Store-side evaluation of a filter document on a record. -/
def bsonMatches : Bson → Todo → Bool
  | .emptyDoc, _ => true
  | .andAll fs, d => fs.all (fun f => regexAccepts f d)

/-- The optional query parameters of a list request
(`ctx.queryParamMap()`): a key is present exactly when the field is
`some`. -/
structure QueryParams where
  owner : Option String
  status : Option String
  body : Option String
  category : Option String
  sortby : Option String
  sortorder : Option String
deriving DecidableEq, Repr

/-- The list of regex leaves `constructFilter` accumulates, in the order
the Java checks the keys: owner, status, body, category. -/
def presentFilters (qp : QueryParams) : List RegexFilter :=
  (match qp.owner with | some v => [⟨"owner", v⟩] | none => [])
    ++ (match qp.status with | some v => [⟨"status", v⟩] | none => [])
    ++ (match qp.body with | some v => [⟨"body", v⟩] | none => [])
    ++ (match qp.category with | some v => [⟨"category", v⟩] | none => [])

/-- `TodoController.constructFilter`: one regex leaf per present key,
combined with `Filters.and`, or the empty document when no key is
present. -/
def constructFilter (qp : QueryParams) : Bson :=
  let filters := presentFilters qp
  if filters.isEmpty then Bson.emptyDoc else Bson.andAll filters

/-- Spec-side reading of one optional filter key: an absent key imposes no
constraint, a present one demands case-insensitive substring containment
in the field's text. -/
def optCI (v : Option String) (field : String) : Bool :=
  match v with
  | none => true
  | some s => strHasSubCI field s

end Server

/-- Lexicographic comparison of character lists, the order JavaScript and
the store use on the text of fields (code-unit order; identical to
code-point order on the data at hand). -/
def charsLe : List Char → List Char → Bool
  | [], _ => true
  | _ :: _, [] => false
  | a :: as, b :: bs => if a = b then charsLe as bs else decide (a < b)

/-- Lexicographic comparison of strings. -/
def strLe (a b : String) : Bool :=
  charsLe a.data b.data

theorem charsLe_total : ∀ as bs : List Char, charsLe as bs = true ∨ charsLe bs as = true := by
  intro as
  induction as with
  | nil => intro bs; left; rfl
  | cons a as ih =>
    intro bs
    cases bs with
    | nil => right; rfl
    | cons b bs =>
      by_cases hab : a = b
      · subst hab
        rcases ih bs with h | h
        · left; simpa [charsLe] using h
        · right; simpa [charsLe] using h
      · rcases lt_or_gt_of_ne hab with h | h
        · left; simp [charsLe, hab, h]
        · right; simp [charsLe, Ne.symm hab, h]

theorem charsLe_trans :
    ∀ as bs cs : List Char, charsLe as bs = true → charsLe bs cs = true →
      charsLe as cs = true := by
  intro as
  induction as with
  | nil => intro bs cs _ _; rfl
  | cons a as ih =>
    intro bs cs h1 h2
    cases bs with
    | nil => simp [charsLe] at h1
    | cons b bs =>
      cases cs with
      | nil => simp [charsLe] at h2
      | cons c cs =>
        by_cases hab : a = b <;> by_cases hbc : b = c
        · subst hab; subst hbc
          simp only [charsLe, if_pos rfl] at h1 h2 ⊢
          exact ih bs cs h1 h2
        · subst hab
          simpa [charsLe, hbc] using h2
        · subst hbc
          simpa [charsLe, hab] using h1
        · simp only [charsLe, if_neg hab] at h1
          simp only [charsLe, if_neg hbc] at h2
          have hac : a < c := lt_trans (of_decide_eq_true h1) (of_decide_eq_true h2)
          simp [charsLe, ne_of_lt hac, hac]

theorem strLe_total (a b : String) : strLe a b = true ∨ strLe b a = true :=
  charsLe_total a.data b.data

theorem strLe_trans {a b c : String} (h1 : strLe a b = true) (h2 : strLe b c = true) :
    strLe a c = true :=
  charsLe_trans a.data b.data c.data h1 h2

namespace Server

/-- A Bson sorting document: `Sorts.ascending f` or `Sorts.descending f`
for a field name `f`. -/
structure SortSpec where
  field : String
  desc : Bool
deriving DecidableEq, Repr

/-- `TodoController.constructSortingOrder`: the `sortby` query parameter
defaults to the literal `"name"`, `sortorder` defaults to `"asc"`, and
exactly the literal `"desc"` yields a descending order. -/
def constructSortingOrder (sortby sortorder : Option String) : SortSpec :=
  let sortBy := sortby.getD "name"
  let sortOrder := sortorder.getD "asc"
  ⟨sortBy, sortOrder == "desc"⟩

/-- The sort key a record presents for a field name: the record's four
fields sort on their values (the boolean through its text form, as in
`docField`); any other field name is absent from the record, giving
`none`. -/
def sortKey (d : Todo) (field : String) : Option String :=
  if field == "owner" then some d.owner
  else if field == "status" then some (if d.status then "true" else "false")
  else if field == "body" then some d.body
  else if field == "category" then some d.category
  else none

/-- Ascending comparison on optional sort keys: an absent key orders before
every present one (Mongo sorts missing values first ascending). -/
def optKeyLe : Option String → Option String → Bool
  | none, _ => true
  | some _, none => false
  | some a, some b => strLe a b

/-- The ascending-order relation induced on records by a sort field. -/
def keyLe (field : String) (d1 d2 : Todo) : Prop :=
  optKeyLe (sortKey d1 field) (sortKey d2 field) = true

instance (field : String) : DecidableRel (keyLe field) := fun d1 d2 =>
  inferInstanceAs (Decidable (optKeyLe (sortKey d1 field) (sortKey d2 field) = true))

/-- Store-side execution of a sorting document: a stable sort on the named
field's key, ties keeping store order (spec section 4.3: ties broken by
store-native order, consistent for a given store state). -/
def sortDocs (s : SortSpec) (docs : List Todo) : List Todo :=
  if s.desc then List.insertionSort (fun d1 d2 => keyLe s.field d2 d1) docs
  else List.insertionSort (keyLe s.field) docs

end Server

/-- C8 counterexample. With no sort parameters at all the resolver produces
ascending order on the literal field `"name"`, not on the record's `owner`
field: on a two-record store whose owners are out of order, the resolved
default sort leaves the store order unchanged, while sorting by `owner`
would swap the records. -/
theorem constructSortingOrder_default_counterexample :
    (Server.constructSortingOrder none none).field = "name" ∧
    "name" ≠ "owner" ∧
    Server.sortDocs (Server.constructSortingOrder none none)
        [⟨"a1", "b", true, "x", "homework"⟩, ⟨"a2", "a", true, "y", "homework"⟩]
      = [⟨"a1", "b", true, "x", "homework"⟩, ⟨"a2", "a", true, "y", "homework"⟩] ∧
    Server.sortDocs ⟨"owner", false⟩
        [⟨"a1", "b", true, "x", "homework"⟩, ⟨"a2", "a", true, "y", "homework"⟩]
      = [⟨"a2", "a", true, "y", "homework"⟩, ⟨"a1", "b", true, "x", "homework"⟩] := by
  refine ⟨rfl, by decide, ?_, ?_⟩ <;> decide

/-- C8 amended. For every list request that supplies no sort-field
parameter, the resolver sorts by the literal default field name `"name"`
with ascending direction when no direction token is supplied; since todo
records carry no `name` field, every pair of records ties and the resolved
default sort preserves the store order of any record sequence. -/
theorem constructSortingOrder_default_name (docs : List Server.Todo) :
    Server.constructSortingOrder none none = ⟨"name", false⟩ ∧
    Server.sortDocs (Server.constructSortingOrder none none) docs = docs := by
  refine ⟨rfl, ?_⟩
  have hpair : docs.Pairwise (Server.keyLe "name") := by
    refine List.pairwise_of_forall ?_
    intro a b
    simp [Server.keyLe, Server.sortKey, Server.optKeyLe]
  simpa [Server.sortDocs, Server.constructSortingOrder] using
    (List.Sorted.insertionSort_eq hpair)

/-- C1. The server-side filter predicate builder turns each present key of
{owner, status, body, category} into a case-insensitive unanchored
substring-match predicate against that field's text, combines the present
predicates with logical AND, and with no keys present matches every
record. -/
theorem constructFilter_conj_ci_substring (qp : Server.QueryParams) (d : Server.Todo) :
    Server.bsonMatches (Server.constructFilter qp) d =
      (Server.optCI qp.owner d.owner
        && Server.optCI qp.status (if d.status then "true" else "false")
        && Server.optCI qp.body d.body
        && Server.optCI qp.category d.category) := by
  obtain ⟨ow, st, bo, ca, _, _⟩ := qp
  cases ow <;> cases st <;> cases bo <;> cases ca <;>
    simp [Server.constructFilter, Server.presentFilters, Server.bsonMatches,
      Server.regexAccepts, Server.optCI, Server.docField, Bool.and_assoc]

namespace Server

/-- Is a string a legal Mongo ObjectId in hex form: exactly 24 hexadecimal
digits (`new ObjectId(id)` throws `IllegalArgumentException` otherwise). -/
def isLegalObjectId (s : String) : Bool :=
  s.length == 24 && s.data.all (fun c => c.isDigit || ('a' ≤ c && c ≤ 'f') || ('A' ≤ c && c ≤ 'F'))

/-- The outcome of `TodoController.getTodo`: the `BadRequestResponse`
thrown when the ObjectId constructor fails, the `NotFoundResponse`, or the
JSON body plus OK status. -/
inductive GetOutcome where
  | badRequest (msg : String)
  | notFoundR (msg : String)
  | ok (t : Todo)
deriving DecidableEq, Repr

/-- `TodoController.getTodo`: parse the id (catching the parse failure as
a bad-request response), fetch the first record whose `_id` equals it,
answer not-found when there is none, else answer that record with OK. -/
def getTodo (id : String) (store : List Todo) : GetOutcome :=
  if isLegalObjectId id then
    match store.find? (fun t => t._id == id) with
    | some t => .ok t
    | none => .notFoundR "The requested todo was not found"
  else .badRequest "The requested todo id wasn't a legal Mongo Object ID."

/-- The outcome of `TodoController.deleteTodo`. The ObjectId constructor
runs outside any try/catch there, so a malformed id makes the
`IllegalArgumentException` escape the handler; that escape is the
`uncaughtIllegalArgument` outcome. -/
inductive DeleteOutcome where
  | uncaughtIllegalArgument
  | notFoundR (msg : String)
  | okDeleted
deriving DecidableEq, Repr

/-- `deleteOne` on the store: remove the first record with the given id,
reporting how many records were deleted (0 or 1). -/
def removeFirstById (id : String) : List Todo → List Todo × Nat
  | [] => ([], 0)
  | t :: ts =>
    if t._id == id then (ts, 1)
    else
      let r := removeFirstById id ts
      (t :: r.1, r.2)

/-- `TodoController.deleteTodo`: construct the ObjectId (uncaught failure
on a malformed id), delete at most one record, answer not-found unless
exactly one record was deleted. Returns the outcome and the store as the
call leaves it. -/
def deleteTodo (id : String) (store : List Todo) : DeleteOutcome × List Todo :=
  if isLegalObjectId id then
    let r := removeFirstById id store
    if r.2 ≠ 1 then
      (.notFoundR ("Was unable to delete ID " ++ id
        ++ "; perhaps illegal ID or an ID for an item not in the system?"), r.1)
    else (.okDeleted, r.1)
  else (.uncaughtIllegalArgument, store)

/-- A candidate record in the body of a POST, before validation: `owner`
and `body` are nullable strings, `status` is a primitive boolean,
`category` a string. -/
structure TodoInput where
  owner : Option String
  status : Bool
  body : Option String
  category : String
deriving DecidableEq, Repr

/-- The category enumeration `CAT_REGEX` accepts (the regular expression
is anchored, so it is exact membership). -/
def legalCategory (c : String) : Bool :=
  c == "groceries" || c == "homework" || c == "software design" || c == "video games"

/-- A nullable string field is non-null and non-empty
(`x != null && x.length() > 0`). -/
def nonEmptyOpt : Option String → Bool
  | some s => decide (0 < s.length)
  | none => false

/-- The validator chain of `TodoController.addNewTodo`, returning the
message of the first failing check in the fixed check order: body
non-empty, owner non-empty, `tdo.status` itself as the condition, category
in the enumeration. -/
def firstValidationError (t : TodoInput) : Option String :=
  if !(nonEmptyOpt t.body) then
    some "Todo must have a non-empty body"
  else if !(nonEmptyOpt t.owner) then
    some "Todo must have a non-empty owner"
  else if !t.status then
    some "Todo must have a non-empty status"
  else if !(legalCategory t.category) then
    some "Todo must have a legal user role"
  else none

/-- The outcome of `TodoController.addNewTodo`: the validator's
`ValidationException` carrying the first failing rule, or CREATED with the
fresh id. -/
inductive AddOutcome where
  | validationFailed (msg : String)
  | created (id : String)
deriving DecidableEq, Repr

/-- `TodoController.addNewTodo`: validate, and only on success insert the
record (with the store-assigned fresh id) and answer that id. Returns the
outcome and the store as the call leaves it. -/
def addNewTodo (t : TodoInput) (freshId : String) (store : List Todo) :
    AddOutcome × List Todo :=
  match firstValidationError t with
  | some m => (.validationFailed m, store)
  | none =>
    (.created freshId, store ++ [⟨freshId, t.owner.getD "", t.status, t.body.getD "", t.category⟩])

end Server

/-- C7. Lookup by identifier: a malformed identifier fails as a client
error with exactly "The requested todo id wasn't a legal Mongo Object
ID."; a well-formed identifier matching no record fails as not-found with
exactly "The requested todo was not found"; otherwise the lookup succeeds
with exactly one record, a record of the store carrying the requested
identifier. -/
theorem getTodo_outcomes (id : String) (store : List Server.Todo) :
    (Server.isLegalObjectId id = false →
      Server.getTodo id store =
        .badRequest "The requested todo id wasn't a legal Mongo Object ID.") ∧
    (Server.isLegalObjectId id = true → (∀ t ∈ store, t._id ≠ id) →
      Server.getTodo id store = .notFoundR "The requested todo was not found") ∧
    (∀ t, Server.getTodo id store = .ok t →
      Server.isLegalObjectId id = true ∧ t ∈ store ∧ t._id = id) ∧
    (Server.isLegalObjectId id = true → ∀ t ∈ store, t._id = id →
      ∃ u, Server.getTodo id store = .ok u ∧ u ∈ store ∧ u._id = id) := by
  refine ⟨?_, ?_, ?_, ?_⟩
  · intro h
    simp [Server.getTodo, h]
  · intro h hall
    have hf : store.find? (fun t => t._id == id) = none := by
      rw [List.find?_eq_none]
      intro t ht
      simpa using hall t ht
    simp [Server.getTodo, h, hf]
  · intro t ht
    by_cases h : Server.isLegalObjectId id
    · rcases hf : store.find? (fun t => t._id == id) with _ | u
      · simp [Server.getTodo, h, hf] at ht
      · simp only [Server.getTodo, h, if_true, hf] at ht
        cases ht
        exact ⟨h, List.mem_of_find?_eq_some hf,
          by simpa using List.find?_some hf⟩
    · simp only [Bool.not_eq_true] at h
      simp [Server.getTodo, h] at ht
  · intro h t ht hid
    rcases hf : store.find? (fun t => t._id == id) with _ | u
    · rw [List.find?_eq_none] at hf
      exact absurd (by simpa using hid) (hf t ht)
    · exact ⟨u, by simp [Server.getTodo, h, hf], List.mem_of_find?_eq_some hf,
        by simpa using List.find?_some hf⟩

/-- C7 witness: the three outcomes at concrete inputs, with a malformed
identifier, a legal absent identifier over the empty store, and a legal
identifier present in a one-record store. -/
theorem getTodo_outcomes_witness :
    Server.getTodo "zzz" [] =
      .badRequest "The requested todo id wasn't a legal Mongo Object ID." ∧
    Server.getTodo "0123456789abcdef01234567" [] =
      .notFoundR "The requested todo was not found" ∧
    (∃ u, Server.getTodo "0123456789abcdef01234567"
        [⟨"0123456789abcdef01234567", "Blanche", false, "a todo", "homework"⟩] = .ok u ∧
      u ∈ [(⟨"0123456789abcdef01234567", "Blanche", false, "a todo", "homework"⟩ : Server.Todo)] ∧
      u._id = "0123456789abcdef01234567") :=
  ⟨(getTodo_outcomes "zzz" []).1 (by decide),
   (getTodo_outcomes "0123456789abcdef01234567" []).2.1 (by decide) (by simp),
   (getTodo_outcomes "0123456789abcdef01234567"
       [⟨"0123456789abcdef01234567", "Blanche", false, "a todo", "homework"⟩]).2.2.2
     (by decide) ⟨"0123456789abcdef01234567", "Blanche", false, "a todo", "homework"⟩
     (by simp) rfl⟩

/-- C10. For every identifier that is not a legal ObjectId, the delete
operation neither answers not-found nor maps the parse failure to a
client-error response: the `IllegalArgumentException` from the ObjectId
constructor escapes `deleteTodo` (leaving the store untouched), whereas
the lookup catches the same failure and answers the bad-request
message. -/
theorem deleteTodo_malformed_propagates (id : String) (store : List Server.Todo)
    (h : Server.isLegalObjectId id = false) :
    (Server.deleteTodo id store).1 = .uncaughtIllegalArgument ∧
    (∀ m, (Server.deleteTodo id store).1 ≠ .notFoundR m) ∧
    (Server.deleteTodo id store).2 = store ∧
    Server.getTodo id store =
      .badRequest "The requested todo id wasn't a legal Mongo Object ID." := by
  refine ⟨?_, ?_, ?_, ?_⟩ <;> simp [Server.deleteTodo, Server.getTodo, h]

/-- C10 witness: the contrast at the concrete malformed identifier
"not-an-id" over a one-record store. -/
theorem deleteTodo_malformed_propagates_witness :
    (Server.deleteTodo "not-an-id" [⟨"0123456789abcdef01234567", "Blanche", false, "a todo", "homework"⟩]).1
        = .uncaughtIllegalArgument ∧
    (∀ m, (Server.deleteTodo "not-an-id" [⟨"0123456789abcdef01234567", "Blanche", false, "a todo", "homework"⟩]).1
        ≠ .notFoundR m) ∧
    (Server.deleteTodo "not-an-id" [⟨"0123456789abcdef01234567", "Blanche", false, "a todo", "homework"⟩]).2
        = [⟨"0123456789abcdef01234567", "Blanche", false, "a todo", "homework"⟩] ∧
    Server.getTodo "not-an-id" [⟨"0123456789abcdef01234567", "Blanche", false, "a todo", "homework"⟩]
        = .badRequest "The requested todo id wasn't a legal Mongo Object ID." :=
  deleteTodo_malformed_propagates "not-an-id"
    [⟨"0123456789abcdef01234567", "Blanche", false, "a todo", "homework"⟩] (by decide)

set_option maxRecDepth 8192 in
/-- C5 counterexample. The insert validation does not enforce the [2,300]
body length bound: a record whose body has length 1 passes every check and
is inserted into the store, and a 301-character body also passes
validation. -/
theorem addNewTodo_shortBody_counterexample :
    Server.firstValidationError ⟨some "Jerry", true, some "x", "homework"⟩ = none ∧
    Server.addNewTodo ⟨some "Jerry", true, some "x", "homework"⟩
        "aaaaaaaaaaaaaaaaaaaaaaaa" [] =
      (.created "aaaaaaaaaaaaaaaaaaaaaaaa",
        [⟨"aaaaaaaaaaaaaaaaaaaaaaaa", "Jerry", true, "x", "homework"⟩]) ∧
    Server.firstValidationError
        ⟨some "Jerry", true, some (String.mk (List.replicate 301 'a')), "homework"⟩ = none := by
  refine ⟨by decide, by decide, ?_⟩
  decide

/-- C5 amended. The server-side insert validation enforces only that the
body is present and non-empty, not the [2,300] length bound: an insert
whose body is missing or empty fails with the first failing rule "Todo
must have a non-empty body" before the record reaches the store, while
bodies of length 1 or longer than 300 characters are accepted (the [2,300]
bound exists only in the client-side form validators). -/
theorem addNewTodo_requires_nonempty_body (t : Server.TodoInput) (fid : String)
    (store : List Server.Todo) (h : t.body = none ∨ t.body = some "") :
    (Server.addNewTodo t fid store).1 = .validationFailed "Todo must have a non-empty body" ∧
    (Server.addNewTodo t fid store).2 = store := by
  rcases h with h | h <;>
    simp [Server.addNewTodo, Server.firstValidationError, Server.nonEmptyOpt, h]

/-- C5 amended witness: a candidate record with no body fails validation
at the body rule and leaves the empty store empty. -/
theorem addNewTodo_requires_nonempty_body_witness :
    (Server.addNewTodo ⟨some "Jerry", true, none, "homework"⟩ "newid" []).1
        = .validationFailed "Todo must have a non-empty body" ∧
    (Server.addNewTodo ⟨some "Jerry", true, none, "homework"⟩ "newid" []).2 = [] :=
  addNewTodo_requires_nonempty_body ⟨some "Jerry", true, none, "homework"⟩ "newid" []
    (Or.inl rfl)

/-- C6. The status check of the insert validation is `tdo.status` itself,
so it demands the boolean be true rather than merely present: an otherwise
valid candidate record with status=false is rejected with the first
failing rule "Todo must have a non-empty status" and never reaches the
store, contradicting the check's own message and the presence-only reading
of the validation. -/
theorem addNewTodo_rejects_status_false :
    Server.firstValidationError ⟨some "Jerry", false, some "cool stuff", "homework"⟩ =
      some "Todo must have a non-empty status" ∧
    Server.addNewTodo ⟨some "Jerry", false, some "cool stuff", "homework"⟩ "newid" [] =
      (.validationFailed "Todo must have a non-empty status", []) := by
  exact ⟨by decide, by decide⟩

namespace Client

/-- The client-side todo record (`todo.ts`). -/
structure Todo where
  _id : String
  owner : String
  status : Bool
  body : String
  category : String
deriving DecidableEq, Repr

/-- The refinement specification the todo list component hands to the
client-side refiner: optional owner/body/category substrings, optional
exact status, optional result limit, optional sort field (`order`). -/
structure TodoFilters where
  owner : Option String
  status : Option Bool
  body : Option String
  category : Option String
  limit : Option Int
  order : Option String
deriving DecidableEq, Repr

/-- Ascending lexical order on the owner field. -/
def ownerLe (a b : Todo) : Prop := strLe a.owner b.owner = true

/-- Ascending lexical order on the body field. -/
def bodyLe (a b : Todo) : Prop := strLe a.body b.body = true

/-- Ascending lexical order on the category field. -/
def categoryLe (a b : Todo) : Prop := strLe a.category b.category = true

instance : DecidableRel ownerLe := fun a b =>
  inferInstanceAs (Decidable (strLe a.owner b.owner = true))

instance : DecidableRel bodyLe := fun a b =>
  inferInstanceAs (Decidable (strLe a.body b.body = true))

instance : DecidableRel categoryLe := fun a b =>
  inferInstanceAs (Decidable (strLe a.category b.category = true))

instance : IsTotal Todo ownerLe := ⟨fun a b => strLe_total a.owner b.owner⟩

instance : IsTotal Todo bodyLe := ⟨fun a b => strLe_total a.body b.body⟩

instance : IsTotal Todo categoryLe := ⟨fun a b => strLe_total a.category b.category⟩

instance : IsTrans Todo ownerLe := ⟨fun _ _ _ h1 h2 => strLe_trans h1 h2⟩

instance : IsTrans Todo bodyLe := ⟨fun _ _ _ h1 h2 => strLe_trans h1 h2⟩

instance : IsTrans Todo categoryLe := ⟨fun _ _ _ h1 h2 => strLe_trans h1 h2⟩

/-- Modelled from the spec: the re-sort stage of the client-side refiner
(spec section 4.4 step 3); the todo-specific `TodoService.filterTodos` the
unit tests and `TodoListComponent.updateFilter` call is not among the
sources. Recognized fields are owner, category and body, each sorted
lexically ascending by a stable sort; any other field name is a no-op. -/
def sortByField (f : String) (todos : List Todo) : List Todo :=
  if f == "owner" then List.insertionSort ownerLe todos
  else if f == "category" then List.insertionSort categoryLe todos
  else if f == "body" then List.insertionSort bodyLe todos
  else todos

/-- Modelled from the spec: one per-field substring filter of the
client-side refiner (spec section 4.4 step 1) — case-sensitive substring
containment on the selected field, applied only when the criterion is
present. -/
def stepSub (sel : Todo → String) (v : Option String) (l : List Todo) : List Todo :=
  match v with
  | some s => l.filter (fun t => strHasSub (sel t) s)
  | none => l

/-- Modelled from the spec: the exact status filter of the client-side
refiner (spec section 4.4 step 2), applied only when a boolean is
supplied. -/
def stepStatus (v : Option Bool) (l : List Todo) : List Todo :=
  match v with
  | some s => l.filter (fun t => t.status == s)
  | none => l

/-- Modelled from the spec: the optional re-sort stage of the client-side
refiner (spec section 4.4 step 3). -/
def stepSort (v : Option String) (l : List Todo) : List Todo :=
  match v with
  | some f => sortByField f l
  | none => l

/-- Modelled from the spec: the truncation stage of the client-side
refiner (spec section 4.4 step 4) — keep the first N records when a limit
N is supplied, no truncation when N ≤ 0 or the limit is absent. -/
def stepLimit (v : Option Int) (l : List Todo) : List Todo :=
  match v with
  | some n => if n ≤ 0 then l else l.take n.toNat
  | none => l

/-- Modelled from the spec: the client-side refiner
`TodoService.filterTodos` (the todo-specific version called by the unit
tests and by `TodoListComponent.updateFilter`, absent from the sources);
spec section 4.4 fixes its stages and their order: per-field case-sensitive
substring filters on owner, body and category ANDed together, then the
exact status filter, then the optional ascending re-sort, then the
optional truncation. -/
def filterTodos (todos : List Todo) (filters : TodoFilters) : List Todo :=
  stepLimit filters.limit
    (stepSort filters.order
      (stepStatus filters.status
        (stepSub (fun t => t.category) filters.category
          (stepSub (fun t => t.body) filters.body
            (stepSub (fun t => t.owner) filters.owner todos)))))

/-- Spec-side reading of one optional refinement criterion: an absent
criterion imposes no constraint, a present one demands case-sensitive
substring containment in the field. -/
def optHas (v : Option String) (field : String) : Bool :=
  match v with
  | none => true
  | some s => strHasSub field s

/-- First canonical sample record. -/
def chrisTodo : Todo := ⟨"chris_id", "Chris", false, "UMM is cool", "software design"⟩

/-- Second canonical sample record. -/
def patTodo : Todo := ⟨"pat_id", "Pat", true, "IBM is not cool", "homework"⟩

/-- Third canonical sample record. -/
def jamieTodo : Todo := ⟨"jamie_id", "Jamie", false, "Frogs, are cool", "groceries"⟩

/-- The three canonical sample records of the unit tests. -/
def sampleTodos : List Todo := [chrisTodo, patTodo, jamieTodo]

end Client

theorem stepSub_eq_filter (sel : Client.Todo → String) (v : Option String)
    (l : List Client.Todo) :
    Client.stepSub sel v l = l.filter (fun t => Client.optHas v (sel t)) := by
  cases v <;> simp [Client.stepSub, Client.optHas]

theorem triple_filter {α : Type} (p1 p2 p3 : α → Bool) (l : List α) :
    List.filter p3 (List.filter p2 (List.filter p1 l)) =
      List.filter (fun t => p1 t && (p2 t && p3 t)) l := by
  rw [List.filter_filter, List.filter_filter]
  exact List.filter_congr (fun a _ => by cases p1 a <;> cases p2 a <;> cases p3 a <;> rfl)

/-- C2. The client-side refiner applies per-field substring filters on
owner, body and category using case-sensitive substring containment, each
present filter independently and all present filters ANDed; refining the
three canonical sample records with owner substring "i" and body substring
"M" returns exactly the Chris record. -/
theorem filterTodos_caseSensitive_and :
    (∀ (todos : List Client.Todo) (ow bo ca : Option String),
      Client.filterTodos todos ⟨ow, none, bo, ca, none, none⟩ =
        todos.filter (fun t =>
          Client.optHas ow t.owner && (Client.optHas bo t.body && Client.optHas ca t.category))) ∧
    Client.filterTodos Client.sampleTodos ⟨some "i", none, some "M", none, none, none⟩ =
      [Client.chrisTodo] := by
  constructor
  · intro todos ow bo ca
    show Client.stepSub _ ca (Client.stepSub _ bo (Client.stepSub _ ow todos)) = _
    rw [stepSub_eq_filter, stepSub_eq_filter, stepSub_eq_filter, triple_filter]
  · decide

/-- C3. The client-side refiner truncates to the first N records exactly
when a limit N > 0 is supplied, applying the truncation to the
filtered-and-sorted result (the refinement with the limit removed) and
preserving its order; a limit N ≤ 0 leaves that result untouched, and the
same equation read at `none` shows an absent limit truncates nothing. -/
theorem filterTodos_limit_after (todos : List Client.Todo) (ow : Option String)
    (st : Option Bool) (bo ca : Option String) (ord : Option String) (n : Int) :
    Client.filterTodos todos ⟨ow, st, bo, ca, some n, ord⟩ =
      (if n ≤ 0 then Client.filterTodos todos ⟨ow, st, bo, ca, none, ord⟩
       else (Client.filterTodos todos ⟨ow, st, bo, ca, none, ord⟩).take n.toNat) := rfl

/-- C4. The client-side refiner's optional re-sort by a named field sorts
lexically ascending (a sorted permutation of its input) when the field is
owner, category or body, is a no-op for any other field name, and sorting
the canonical sample records by body yields the bodies "Frogs, are cool",
"IBM is not cool", "UMM is cool" in that order. -/
theorem filterTodos_sortField :
    (∀ (todos : List Client.Todo) (f : String),
        f ≠ "owner" → f ≠ "category" → f ≠ "body" →
        Client.filterTodos todos ⟨none, none, none, none, none, some f⟩ = todos) ∧
    (∀ todos : List Client.Todo,
        List.Sorted Client.ownerLe
            (Client.filterTodos todos ⟨none, none, none, none, none, some "owner"⟩) ∧
        (Client.filterTodos todos ⟨none, none, none, none, none, some "owner"⟩).Perm todos) ∧
    (∀ todos : List Client.Todo,
        List.Sorted Client.categoryLe
            (Client.filterTodos todos ⟨none, none, none, none, none, some "category"⟩) ∧
        (Client.filterTodos todos ⟨none, none, none, none, none, some "category"⟩).Perm todos) ∧
    (∀ todos : List Client.Todo,
        List.Sorted Client.bodyLe
            (Client.filterTodos todos ⟨none, none, none, none, none, some "body"⟩) ∧
        (Client.filterTodos todos ⟨none, none, none, none, none, some "body"⟩).Perm todos) ∧
    Client.filterTodos Client.sampleTodos ⟨none, none, none, none, none, some "body"⟩ =
      [Client.jamieTodo, Client.patTodo, Client.chrisTodo] := by
  refine ⟨?_, ?_, ?_, ?_, by decide⟩
  · intro todos f h1 h2 h3
    show Client.sortByField f todos = todos
    simp [Client.sortByField, h1, h2, h3]
  · intro todos
    exact ⟨List.sorted_insertionSort Client.ownerLe todos,
      List.perm_insertionSort Client.ownerLe todos⟩
  · intro todos
    exact ⟨List.sorted_insertionSort Client.categoryLe todos,
      List.perm_insertionSort Client.categoryLe todos⟩
  · intro todos
    exact ⟨List.sorted_insertionSort Client.bodyLe todos,
      List.perm_insertionSort Client.bodyLe todos⟩

/-- C4 witness: sorting by the unrecognized field name "status" leaves the
canonical sample records in their original order. -/
theorem filterTodos_sortField_witness :
    Client.filterTodos Client.sampleTodos ⟨none, none, none, none, none, some "status"⟩ =
      Client.sampleTodos :=
  filterTodos_sortField.1 Client.sampleTodos "status" (by decide) (by decide) (by decide)

namespace Client

/-- Modelled from the spec: the two arguments of one call of the
client-side refiner (the fetched sequence and the refinement
specification), the state a caller such as `TodoListComponent.updateFilter`
owns across the call; the todo-specific `TodoService.filterTodos` itself is
absent from the sources. -/
structure RefinerCall where
  todos : List Todo
  filters : TodoFilters
deriving DecidableEq, Repr

/-- Modelled from the spec: one call of the client-side refiner, returning
the caller's state alongside the refined sequence; spec sections 4.4 and 5
make the refiner a pure, synchronous transformation with no suspension
points and no writes to its arguments. -/
def filterTodosCall (call : RefinerCall) : RefinerCall × List Todo :=
  (call, filterTodos call.todos call.filters)

end Client

theorem stepSub_sublist (sel : Client.Todo → String) (v : Option String)
    (l : List Client.Todo) : List.Sublist (Client.stepSub sel v l) l := by
  cases v <;> simp [Client.stepSub]

theorem stepStatus_sublist (v : Option Bool) (l : List Client.Todo) :
    List.Sublist (Client.stepStatus v l) l := by
  cases v <;> simp [Client.stepStatus]

theorem stepSort_perm (v : Option String) (l : List Client.Todo) :
    (Client.stepSort v l).Perm l := by
  cases v with
  | none => exact List.Perm.refl l
  | some f =>
    show (Client.sortByField f l).Perm l
    unfold Client.sortByField
    split
    · exact List.perm_insertionSort Client.ownerLe l
    · split
      · exact List.perm_insertionSort Client.categoryLe l
      · split
        · exact List.perm_insertionSort Client.bodyLe l
        · exact List.Perm.refl l

theorem stepLimit_sublist (v : Option Int) (l : List Client.Todo) :
    List.Sublist (Client.stepLimit v l) l := by
  cases v with
  | none => exact List.Sublist.refl l
  | some n =>
    show List.Sublist (if n ≤ 0 then l else l.take n.toNat) l
    split
    · exact List.Sublist.refl l
    · exact List.take_sublist n.toNat l

theorem filterTodos_subperm (todos : List Client.Todo) (f : Client.TodoFilters) :
    List.Subperm (Client.filterTodos todos f) todos := by
  unfold Client.filterTodos
  refine List.Subperm.trans ((stepLimit_sublist _ _).subperm) ?_
  refine List.Subperm.trans ((stepSort_perm _ _).subperm) ?_
  refine List.Subperm.trans ((stepStatus_sublist _ _).subperm) ?_
  refine List.Subperm.trans ((stepSub_sublist _ _ _).subperm) ?_
  refine List.Subperm.trans ((stepSub_sublist _ _ _).subperm) ?_
  exact (stepSub_sublist _ _ _).subperm

/-- C9. The client-side refiner is a pure transformation: a call returns
the caller's state — the input sequence and the refinement specification —
unchanged, and produces a new sequence, one drawn from the input records
(a subpermutation of the input, never an in-place mutation of it). -/
theorem filterTodos_pure_call (call : Client.RefinerCall) :
    (Client.filterTodosCall call).1 = call ∧
    (Client.filterTodosCall call).1.todos = call.todos ∧
    (Client.filterTodosCall call).1.filters = call.filters ∧
    List.Subperm (Client.filterTodosCall call).2 call.todos :=
  ⟨rfl, rfl, rfl, filterTodos_subperm call.todos call.filters⟩
